import Mathlib

/-!
Verification of the webpack-symmetric backend-proxy configurator.

The development shallowly embeds the two subsystems of the repository:
the proxy policy built by `createBackendProxy` (src/index.js) and the
certificate bootstrap pipeline `createSelfSignedCert` (ssl.js) together
with the CA distribution server (server.js).  Strings are modelled as
Lean `String`s, header maps as explicit optional fields, the filesystem
as a record of optional file contents, and the impure host-discovery
commands as explicit parameters.  The JavaScript regular expressions in
the source are small and concrete; each is translated into an executable
scanner with the same leftmost-match semantics.
-/

namespace WebpackSymmetric

/-! ## Generic character and list scanners -/

/-- JS `\w`: ASCII letters, digits and underscore. -/
def isWordChar (c : Char) : Bool := c.isAlphanum || c == '_'

/-- Strip `pat` from the front of `l` when it is literally there. -/
def stripFront : List Char → List Char → Option (List Char)
  | [], l => some l
  | _ :: _, [] => none
  | p :: ps, c :: cs => if p == c then stripFront ps cs else none

/-- Does the literal pattern occur anywhere in `l`?  (JS `RegExp.test` of a
regex with no metacharacters.) -/
def occursL (pat : List Char) : List Char → Bool
  | [] => (stripFront pat []).isSome
  | c :: cs => (stripFront pat (c :: cs)).isSome || occursL pat cs

def occursStr (pat s : String) : Bool := occursL pat.data s.data

/-! ## src/index.js : constants and path normalization -/

def STANDARD_PATHS : List String :=
  ["api", "login", "logout", "auth", "deauth", "setup", "callback",
   "static", "__debug__"]

def STANDARD_SUBPATHS : List String := []

def BACKEND_COOKIE : String := "proxybackend"

/-- `path.replace(/\//g, '')`: remove every slash. -/
def stripSlashes (s : String) : String := ⟨s.data.filter (fun c => !(c == '/'))⟩

/-- `arr.splice(-1, 0, ...ins)`: insert `ins` just before the last element
(at the front when the array is empty). -/
def spliceBeforeLast : List String → List String → List String
  | [], ins => ins
  | [x], ins => ins ++ [x]
  | x :: y :: xs, ins => x :: spliceBeforeLast (y :: xs) ins

/-- The in-place rewriting `createBackendProxy` performs on `options.paths`:
slashes stripped from each element, then the standard paths spliced in. -/
def normalizePaths (paths : List String) : List String :=
  spliceBeforeLast (paths.map stripSlashes) STANDARD_PATHS

/-- Same rewriting for `options.subpaths` (the standard subpath set is empty). -/
def normalizeSubpaths (subpaths : List String) : List String :=
  spliceBeforeLast (subpaths.map stripSlashes) STANDARD_SUBPATHS

/-! ## src/index.js : the bypass predicate -/

/-- `paths.indexOf(parts[i]) !== -1`, where a missing part (`undefined`)
is never found. -/
def optMem (l : List String) : Option String → Bool
  | none => false
  | some s => l.contains s

/-- JS `str.split(sep)` for a one-character separator: accumulate the
current field and emit it at each separator and at the end, so `""` splits
to `[""]` and separators at the edges produce empty fields. -/
def splitCharAux (sep : Char) : List Char → List Char → List String
  | [], acc => [⟨acc.reverse⟩]
  | c :: cs, acc =>
    if c == sep then ⟨acc.reverse⟩ :: splitCharAux sep cs []
    else splitCharAux sep cs (c :: acc)

/-- `req.url.split('/')`. -/
def splitChar (sep : Char) (s : String) : List String :=
  splitCharAux sep s.data []

/-- The `if` condition inside `bypass(req)`. -/
def bypassCond (paths subpaths : List String) (method url : String) : Bool :=
  let parts := splitChar '/' url
  (!(method == "GET") && !(method == "HEAD"))
    || optMem paths (parts.get? 1) || optMem subpaths (parts.get? 2)

/-- The webpack `bypass` callback: `none` models `return false` (route the
request through the proxy); `some url` models returning `req.url`
unmodified (serve it locally, bypassing the proxy). -/
def bypass (paths subpaths : List String) (method url : String) : Option String :=
  if bypassCond paths subpaths method url then none else some url

/-! ## src/index.js : session-cookie continuity -/

/-- `new RegExp(`proxybackend=${backend};?`).test(cookies)`: with a
metacharacter-free backend origin the optional `;` is irrelevant to `test`,
so this is containment of the literal marker. -/
def markerTest (backend cookies : String) : Bool :=
  occursStr (BACKEND_COOKIE ++ "=" ++ backend) cookies

def sessKey : List Char := "sessionid=".data

/-- Greedy `\w*`: drop the maximal leading run of word characters. -/
def dropWordRun : List Char → List Char
  | [] => []
  | c :: cs => if isWordChar c then dropWordRun cs else c :: cs

/-- Optional trailing `;?` of the session-cookie regex. -/
def afterSemi : List Char → List Char
  | ';' :: cs => cs
  | l => l

/-- Try to match `/sessionid=\w+;?/` at the head of `l`; on success return
what follows the match. -/
def matchSessAt (l : List Char) : Option (List Char) :=
  match stripFront sessKey l with
  | none => none
  | some r =>
    match r with
    | [] => none
    | c :: cs => if isWordChar c then some (afterSemi (dropWordRun cs)) else none

/-- `cookies.replace(/sessionid=\w+;?/, '')`: delete the leftmost match. -/
def stripSessL : List Char → List Char
  | [] => []
  | c :: cs =>
    match matchSessAt (c :: cs) with
    | some r => r
    | none => c :: stripSessL cs

/-- `/sessionid=\w+;?/.test`. -/
def hasSessL : List Char → Bool
  | [] => false
  | c :: cs => (matchSessAt (c :: cs)).isSome || hasSessL cs

/-- No position inside `p` starts a session-cookie match of `p ++ r`. -/
def noSessAcross : List Char → List Char → Bool
  | [], _ => true
  | c :: ps, r => (matchSessAt (c :: (ps ++ r))).isNone && noSessAcross ps r

def stripSess (s : String) : String := ⟨stripSessL s.data⟩

def hasSessStr (s : String) : Bool := hasSessL s.data

/-- `onProxyReq`: read the `cookie` header of the outgoing request; when it
is present, non-empty and the backend marker does not match, replace the
first `sessionid=\w+;?` match by nothing.  `none` models an absent header. -/
def onProxyReq (backend : String) (cookie : Option String) : Option String :=
  match cookie with
  | none => none
  | some c =>
    if !(c == "") && !(markerTest backend c) then some (stripSess c) else some c

/-! ## src/index.js : response marker cookie (`onProxyRes`) -/

/-- A header value as Node exposes it: absent, a single string, or an array. -/
inductive HVal where
  | missing : HVal
  | one : String → HVal
  | arr : List String → HVal
deriving DecidableEq, Repr

/-- `let resCookies = proxyRes.headers['set-cookie'] || [];
if (!Array.isArray(resCookies)) resCookies = [resCookies];`
(an empty-string single value is falsy, hence `[]`). -/
def normalizeSC : HVal → List String
  | HVal.missing => []
  | HVal.one s => if s == "" then [] else [s]
  | HVal.arr l => l

/-- The marker cookie pushed onto the response. -/
def backendCookieValue (backend expStr : String) : String :=
  BACKEND_COOKIE ++ "=" ++ backend ++ "; expires=" ++ expStr ++ "; path=/"

/-- The cookie that expires a stale `sessionid`. -/
def expiredSessionCookie : String :=
  "sessionid=; expires=Thu, 01 Jan 1970 00:00:01 GMT; path=/"

/-- `onProxyRes`: when the request's cookie header (defaulted to `""`)
lacks the backend marker, normalize `set-cookie` to an array, push the
marker cookie (expiring 365 days from now, rendered by `toUTC`), and when
no value of the array matches `/sessionid=\w+;?/`, push an expired
`sessionid`.  Otherwise leave the header alone. -/
def onProxyRes (backend : String) (reqCookie : Option String) (sc : HVal)
    (toUTC : Nat → String) (now : Nat) : HVal :=
  if markerTest backend (reqCookie.getD "") then sc
  else
    let expires := now + 365
    let l := normalizeSC sc ++ [backendCookieValue backend (toUTC expires)]
    let l2 := if (l.filter (fun c => hasSessStr c)).length == 0
      then l ++ [expiredSessionCookie] else l
    HVal.arr l2

/-! ## src/index.js : insecure mode -/

/-- `proxy.protocolRewrite`. -/
def protocolRewriteMode (insecure : Bool) : String :=
  if insecure then "http" else "https"

/-- `cookie.replace(/secure\s*$/, '')`: remove a final lowercase `secure`
followed only by whitespace; the regex is case-sensitive. -/
def stripSecureSuffix (s : String) : String :=
  let r := s.data.reverse
  let r2 := r.dropWhile Char.isWhitespace
  match stripFront "eruces".data r2 with
  | some rest => ⟨rest.reverse⟩
  | none => s

/-- The loop the insecure-mode wrapper runs over the `set-cookie` array. -/
def insecureAdjustCookies (l : List String) : List String :=
  l.map stripSecureSuffix

/-! ## src/index.js : origin rewriting of HTML bodies -/

/-- Case-insensitive literal prefix strip (the `i` flag on an
alternation of literal origins). -/
def ciStrip : List Char → List Char → Option (List Char)
  | [], l => some l
  | _ :: _, [] => none
  | p :: ps, c :: cs => if p.toLower == c.toLower then ciStrip ps cs else none

/-- Try each origin in order at the current position (regex alternation
prefers the leftmost alternative).  Empty origins are skipped. -/
def tryOrigins : List (List Char) → List Char → Option (List Char)
  | [], _ => none
  | o :: os, l =>
    match o with
    | [] => tryOrigins os l
    | _ :: _ =>
      match ciStrip o l with
      | some r => some r
      | none => tryOrigins os l

/-- `body.replace(re, '')` with `re = new RegExp(origins.join('|'), 'ig')`:
scan left to right, deleting each leftmost case-insensitive occurrence of
an origin and continuing after it.  The fuel argument (instantiated with
the body length, which bounds the number of scanning steps) makes the
recursion structural. -/
def removeAllFuel (os : List (List Char)) : Nat → List Char → List Char
  | 0, l => l
  | _ + 1, [] => []
  | n + 1, c :: cs =>
    match tryOrigins os (c :: cs) with
    | some r => removeAllFuel os n r
    | none => c :: removeAllFuel os n cs

def removeAllL (os : List (List Char)) (l : List Char) : List Char :=
  removeAllFuel os l.length l

def removeAll (origins : List String) (s : String) : String :=
  ⟨removeAllL (origins.map String.data) s.data⟩

/-- No position inside `a` starts an origin match of `a ++ r`. -/
def noOriginAcross (os : List (List Char)) : List Char → List Char → Bool
  | [], _ => true
  | c :: ps, r => (tryOrigins os (c :: (ps ++ r))).isNone && noOriginAcross os ps r

/-- `proxyRes.headers['content-type'] && ...indexOf('text/html') !== -1`. -/
def isHtmlContentType : Option String → Bool
  | none => false
  | some ct => !(ct == "") && occursStr "text/html" ct

/-- The origin-rewrite response hook: for an HTML response, buffer the body,
gunzip it when the outgoing `content-encoding` is exactly `gzip`, delete
every configured origin, drop the `content-encoding` header and emit the
result; any other response streams through untouched.  The result is the
final (`content-encoding` header, emitted body) pair. -/
def htmlRewriteHook (origins : List String) (contentType : Option String)
    (contentEncoding : Option String) (gunzip : String → String)
    (body : String) : Option String × String :=
  if isHtmlContentType contentType then
    let raw := if contentEncoding == some "gzip" then gunzip body else body
    (none, removeAll origins raw)
  else (contentEncoding, body)

/-! ## ssl.js : SAN sets -/

/-- Append an entry unless already present
(`if (arr.indexOf(x) === -1) arr.push(x)`). -/
def addUnique (l : List String) (x : String) : List String :=
  if l.contains x then l else l ++ [x]

def addAllUnique (l : List String) (xs : List String) : List String :=
  xs.foldl addUnique l

/-- The domain alt-name list: seeded with `localhost`, caller-supplied
additions deduplicated via `addDomain`, then the discovered hostname
(`uname -n`, absent when the command failed) pushed directly — without the
`addDomain` duplicate check. -/
def sanDomains (additionalDomains : List String) (hostname : Option String) :
    List String :=
  let base := addAllUnique ["localhost"] additionalDomains
  match hostname with
  | none => base
  | some h => base ++ [h]

/-- The IP alt-name list: seeded with `127.0.0.1`; caller-supplied
additions, discovered LAN addresses and the public IP all go through the
deduplicating `addIP`. -/
def sanIPs (additionalIPs lanIPs : List String) (publicIP : Option String) :
    List String :=
  let l1 := addAllUnique (addAllUnique ["127.0.0.1"] additionalIPs) lanIPs
  match publicIP with
  | none => l1
  | some ip => addUnique l1 ip

/-! ## ssl.js : the SAN extension document -/

/-- `.replace(/ {2}/g, '')`: delete every pair of adjacent spaces, scanning
left to right and resuming after each deleted pair. -/
def rsp : List Char → List Char
  | [] => []
  | [c] => [c]
  | c1 :: c2 :: rest =>
    if c1 == ' ' && c2 == ' ' then rsp rest else c1 :: rsp (c2 :: rest)

def rspStr (s : String) : String := ⟨rsp s.data⟩

/-- Not the space character. -/
def nsp (c : Char) : Bool := !(c == ' ')

/-- Entirely space-free. -/
def sfree (l : List Char) : Bool := l.all nsp

/-- No two adjacent spaces (such a list is a fixed point of `rsp`). -/
def noPair : List Char → Bool
  | [] => true
  | [_] => true
  | c1 :: c2 :: rest => !(c1 == ' ' && c2 == ' ') && noPair (c2 :: rest)

/-- Nonempty and starting with a non-space character. -/
def headNS : List Char → Bool
  | [] => false
  | c :: _ => nsp c

/-- Nonempty and ending with a non-space character. -/
def lastNS : List Char → Bool
  | [] => false
  | [c] => nsp c
  | _ :: c :: cs => lastNS (c :: cs)

/-- A line that survives the double-space removal intact even when
surrounded by newlines: no space pairs inside, non-space at both ends. -/
def cleanLine (s : String) : Bool :=
  noPair s.data && headNS s.data && lastNS s.data

/-- Decimal digits, used to render the 1-based SAN indices. -/
def digitChar : Nat → Char
  | 0 => '0' | 1 => '1' | 2 => '2' | 3 => '3' | 4 => '4'
  | 5 => '5' | 6 => '6' | 7 => '7' | 8 => '8' | _ => '9'

/-- Digit accumulator for decimal rendering; the fuel argument (a digit
count bound, instantiated with the number itself) keeps the recursion
structural so that the kernel can evaluate it. -/
def natDecAux : Nat → Nat → List Char → List Char
  | 0, _, acc => acc
  | _ + 1, 0, acc => acc
  | fuel + 1, n + 1, acc =>
    natDecAux fuel ((n + 1) / 10) (digitChar ((n + 1) % 10) :: acc)

/-- Decimal rendering of a natural number (JS number-to-string). -/
def natDec (n : Nat) : String :=
  match n with
  | 0 => "0"
  | n + 1 => ⟨natDecAux (n + 1) (n + 1) []⟩

/-- `arr.map((entry, index) => `TAG.${index + 1} = ${entry}`)`, carrying the
running 0-based index. -/
def sanLines (tag : String) : Nat → List String → List String
  | _, [] => []
  | n, d :: ds => (tag ++ natDec (n + 1) ++ " = " ++ d) :: sanLines tag (n + 1) ds

/-- `.join('\n')`. -/
def joinNL : List String → String
  | [] => ""
  | [s] => s
  | s :: s' :: rest => s ++ "\n" ++ joinNL (s' :: rest)

/-- The freshly computed SAN extension document: the indented template
literal with the DNS and IP lines interpolated, then every double space
removed. -/
def extDocument (domains ips : List String) : String :=
  rspStr ("\n    subjectAltName = @alt_names\n\n    [ alt_names ]\n    "
    ++ joinNL (sanLines "DNS." 0 domains) ++ "\n    "
    ++ joinNL (sanLines "IP." 0 ips) ++ "\n  ")

/-- The CA extension config written when a CA is generated (sets
`basicConstraints=CA:true`), after the same double-space removal. -/
def caExtDocument : String :=
  rspStr ("\n    [ req ]\n    req_extensions=v3_ca\n    "
    ++ "distinguished_name=req_distinguished_name\n\n    "
    ++ "[ req_distinguished_name ]\n\n    [ v3_ca ]\n    "
    ++ "basicConstraints=CA:true\n    ")

/-! ## ssl.js : the certificate bootstrap pipeline -/

/-- The files `createSelfSignedCert` touches under the storage root, by
content; `none` models a file that does not exist. -/
structure CertFS where
  caKey : Option String
  caCert : Option String
  caExt : Option String
  key : Option String
  csr : Option String
  cert : Option String
  ext : Option String
deriving DecidableEq, Repr

/-- Fresh key material produced by the openssl invocations when they run. -/
structure FreshMaterial where
  caKey : String
  caCert : String
  key : String
  csr : String
  cert : String
deriving DecidableEq, Repr

/-- Results of the best-effort host discovery commands; each is absent
exactly when its command threw. -/
structure DiscoveryEnv where
  hostname : Option String
  lanIPs : List String
  publicIP : Option String
deriving DecidableEq, Repr

/-- The `options` object of `createSelfSignedCert`. -/
structure SSLOptions where
  additionalDomains : List String
  additionalIPs : List String
deriving DecidableEq, Repr

/-- `if (!fs.existsSync(caKey) || !fs.existsSync(caCert))`: write the CA
extension config and generate a self-signed root key and certificate;
otherwise touch nothing. -/
def caStep (fs : CertFS) (m : FreshMaterial) : CertFS :=
  if fs.caKey.isNone || fs.caCert.isNone then
    { fs with caExt := some caExtDocument,
              caKey := some m.caKey, caCert := some m.caCert }
  else fs

/-- `fs.existsSync(ext) && fs.readFileSync(ext).toString() === extData
&& fs.existsSync(key) && fs.existsSync(cert)`. -/
def leafReuse (fs : CertFS) (extData : String) : Bool :=
  (match fs.ext with
   | some stored => stored == extData
   | none => false) && fs.key.isSome && fs.cert.isSome

/-- The leaf lifecycle: reuse the existing key and certificate when the
stored extension document matches and both files exist, otherwise write the
new extension document and generate a fresh key, CSR and signed
certificate.  The boolean reports reuse. -/
def leafStep (fs : CertFS) (extData : String) (m : FreshMaterial) :
    CertFS × Bool :=
  if leafReuse fs extData then (fs, true)
  else
    ({ fs with ext := some extData, key := some m.key,
               csr := some m.csr, cert := some m.cert }, false)

/-- The SAN extension document `createSelfSignedCert` computes for the
given options and discovery results. -/
def computedExt (o : SSLOptions) (d : DiscoveryEnv) : String :=
  extDocument (sanDomains o.additionalDomains d.hostname)
    (sanIPs o.additionalIPs d.lanIPs d.publicIP)

/-- One invocation of `createSelfSignedCert`: the CA step runs first,
then the leaf step against the freshly computed SAN document.  Returns the
resulting filesystem and whether the existing leaf cert was reused. -/
def createSelfSignedCert (fs : CertFS) (o : SSLOptions) (d : DiscoveryEnv)
    (m : FreshMaterial) : CertFS × Bool :=
  leafStep (caStep fs m) (computedExt o d) m

/-! ## server.js : the CA distribution server -/

/-- One `writeHead`/`end` pair performed on the server response. -/
structure HttpResp where
  status : Nat
  contentType : String
  body : String
deriving DecidableEq, Repr

/-- The request handler of `certServer`: the `/` and `/symmetric_ca.crt`
branches each write a 200 response, and then — with no `return` or `else`
guarding it — the handler always falls through to the 404 `writeHead` and
`end`.  The list records every response write the handler performs, in
order. -/
def certServerHandler (url : String) (index cert : String) : List HttpResp :=
  (if url == "/" then [⟨200, "text/html", index⟩]
   else if url == "/symmetric_ca.crt" then
     [⟨200, "application/x-x509-ca-cert", cert⟩]
   else [])
  ++ [⟨404, "text/plain", "404 - Not Found"⟩]

/-! # Theorems -/

/-! ## Path normalization -/

theorem spliceBeforeLast_nil_ins (l : List String) :
    spliceBeforeLast l [] = l := by
  induction l with
  | nil => rfl
  | cons x xs ih =>
    cases xs with
    | nil => rfl
    | cons y ys => simpa [spliceBeforeLast] using ih

theorem spliceBeforeLast_length (l ins : List String) :
    (spliceBeforeLast l ins).length = l.length + ins.length := by
  induction l with
  | nil => simp [spliceBeforeLast]
  | cons x xs ih =>
    cases xs with
    | nil => simp [spliceBeforeLast]; omega
    | cons y ys => simp [spliceBeforeLast] at ih ⊢; omega

theorem spliceBeforeLast_mem_ins {x : String} (l : List String)
    {ins : List String} (hx : x ∈ ins) : x ∈ spliceBeforeLast l ins := by
  induction l with
  | nil => simpa [spliceBeforeLast] using hx
  | cons a xs ih =>
    cases xs with
    | nil => simp [spliceBeforeLast]; left; exact hx
    | cons y ys => simp [spliceBeforeLast]; right; simpa [spliceBeforeLast] using ih

theorem spliceBeforeLast_count (l ins : List String) (x : String) :
    (spliceBeforeLast l ins).count x = l.count x + ins.count x := by
  induction l with
  | nil => simp [spliceBeforeLast]
  | cons a xs ih =>
    cases xs with
    | nil => simp [spliceBeforeLast, List.count_append, List.count_cons]; omega
    | cons y ys =>
      simp only [spliceBeforeLast, List.count_cons] at ih ⊢
      rw [ih]
      omega

theorem count_map_stripSlashes (l : List String) (x : String)
    (hx : stripSlashes x = x) : l.count x ≤ (l.map stripSlashes).count x := by
  induction l with
  | nil => simp
  | cons a xs ih =>
    simp only [List.map_cons, List.count_cons]
    by_cases ha : a = x
    · subst ha
      rw [hx]
      omega
    · have h1 : (a == x) = false := beq_eq_false_iff_ne.mpr ha
      rw [h1]
      simp only [Bool.false_eq_true, if_false]
      split <;> omega

theorem normalizePaths_length (l : List String) :
    (normalizePaths l).length = l.length + 9 := by
  simp [normalizePaths, spliceBeforeLast_length, STANDARD_PATHS]

theorem normalizePaths_count_api (l : List String) :
    (normalizePaths l).count "api" = (l.map stripSlashes).count "api" + 1 := by
  unfold normalizePaths
  rw [spliceBeforeLast_count]
  have h1 : STANDARD_PATHS.count "api" = 1 := by decide
  rw [h1]

/-- C10 — the claim as frozen says both caller arrays grow with each call;
the standard subpath set is empty, so a subpath array does not grow:
`["x"]` is returned unchanged by a first and a second call. -/
theorem C10_subpaths_do_not_grow :
    normalizeSubpaths ["x"] = ["x"]
    ∧ normalizeSubpaths (normalizeSubpaths ["x"]) = ["x"] := by
  constructor <;> rfl

/-- C10 (amended) — `createBackendProxy` rewrites `options.paths` and
`options.subpaths` in place: every element has its slashes stripped and
the standard sets are spliced in.  The standard top-level set has nine
entries, so the paths array grows by nine with every call and a repeated
call re-inserts standard entries already present (`api` occurs at least
twice after two calls); the standard subpath set is empty, so the subpaths
array is rewritten but never grows. -/
theorem C10_paths_mutation (l : List String) (n : Nat) :
    (normalizePaths l).length = l.length + 9
    ∧ (∀ p, p ∈ STANDARD_PATHS → p ∈ normalizePaths l)
    ∧ (normalizePaths^[n + 1] l).length = (normalizePaths^[n] l).length + 9
    ∧ 2 ≤ (normalizePaths (normalizePaths l)).count "api"
    ∧ normalizeSubpaths l = l.map stripSlashes
    ∧ (normalizeSubpaths (normalizeSubpaths l)).length = l.length := by
  refine ⟨normalizePaths_length l, ?_, ?_, ?_, ?_, ?_⟩
  · intro p hp
    exact spliceBeforeLast_mem_ins _ hp
  · rw [Function.iterate_succ_apply', normalizePaths_length]
  · have h1 := normalizePaths_count_api (normalizePaths l)
    have h2 := count_map_stripSlashes (normalizePaths l) "api" (by decide)
    have h3 := normalizePaths_count_api l
    omega
  · simp [normalizeSubpaths, STANDARD_SUBPATHS, spliceBeforeLast_nil_ins]
  · simp [normalizeSubpaths, STANDARD_SUBPATHS, spliceBeforeLast_nil_ins]

/-! ## The bypass predicate -/

theorem bypass_none_iff (paths subpaths : List String) (method url : String) :
    bypass paths subpaths method url = none
      ↔ bypassCond paths subpaths method url = true := by
  unfold bypass
  split <;> simp_all

/-- C1 — the bypass predicate routes through the proxy (`none`, i.e. the
callback returns `false`) exactly when the method is neither GET nor HEAD,
or the first path segment is in the configured top-level set, or the
second segment is in the configured second-level set; otherwise it
returns the request URL unmodified.  `GET /api/x` is proxied,
`GET /foo/bar` is bypassed when nothing matches, and `POST /foo` is
always proxied. -/
theorem C1_bypass_policy (userPaths userSubpaths : List String)
    (method url : String) :
    (bypass (normalizePaths userPaths) (normalizeSubpaths userSubpaths)
        method url = none
      ↔ ((method == "GET" || method == "HEAD") = false
          ∨ optMem (normalizePaths userPaths)
              ((splitChar '/' url).get? 1) = true
          ∨ optMem (normalizeSubpaths userSubpaths)
              ((splitChar '/' url).get? 2) = true))
    ∧ (bypass (normalizePaths userPaths) (normalizeSubpaths userSubpaths)
          method url = none
        ∨ bypass (normalizePaths userPaths) (normalizeSubpaths userSubpaths)
            method url = some url)
    ∧ bypass (normalizePaths []) (normalizeSubpaths []) "GET" "/api/x" = none
    ∧ bypass (normalizePaths []) (normalizeSubpaths []) "GET" "/foo/bar"
        = some "/foo/bar"
    ∧ bypass (normalizePaths []) (normalizeSubpaths []) "POST" "/foo" = none := by
  refine ⟨?_, ?_, by decide, by decide, by decide⟩
  · rw [bypass_none_iff]
    simp only [bypassCond, Bool.or_eq_true, Bool.and_eq_true,
      Bool.not_eq_true', Bool.or_eq_false_iff]
    tauto
  · unfold bypass
    split
    · left; rfl
    · right; rfl

/-! ## Insecure mode (C6) -/

/-- C6 — the protocol-rewrite mode is `http` in insecure mode and `https`
otherwise; but the cookie adjustment does NOT strip a standard-case
`Secure` attribute: the regex `/secure\s*$/` is lowercase-only and
case-sensitive, so `token=1; Secure` passes through unchanged (while a
lowercase `token=1; secure` is stripped to `token=1; `).  This contradicts
the claim and the code's own comment ("Remove the secure flag from all
cookies so they work with insecure http locally"). -/
theorem C6_secure_strip_case_sensitive :
    protocolRewriteMode true = "http"
    ∧ protocolRewriteMode false = "https"
    ∧ insecureAdjustCookies ["token=1; Secure"] = ["token=1; Secure"]
    ∧ insecureAdjustCookies ["token=1; secure"] = ["token=1; "] := by
  refine ⟨rfl, rfl, ?_, ?_⟩ <;> decide

/-! ## The distribution server (C8) -/

/-- C8 — the `certServer` request handler is missing a `return`/`else`
before its 404 fallback: the known routes `/` and `/symmetric_ca.crt`
write their 200 response and then fall through to a second
`writeHead(404)`/`end` on the already-ended response (which raises
`ERR_HTTP_HEADERS_SENT` in Node and crashes the process); only unknown
routes produce exactly one response. -/
theorem C8_certServer_fallthrough (idx cert : String) :
    certServerHandler "/" idx cert
      = [⟨200, "text/html", idx⟩, ⟨404, "text/plain", "404 - Not Found"⟩]
    ∧ certServerHandler "/symmetric_ca.crt" idx cert
      = [⟨200, "application/x-x509-ca-cert", cert⟩,
         ⟨404, "text/plain", "404 - Not Found"⟩]
    ∧ certServerHandler "/unknown" idx cert
      = [⟨404, "text/plain", "404 - Not Found"⟩]
    ∧ (certServerHandler "/" idx cert).length = 2 := by
  exact ⟨rfl, rfl, rfl, rfl⟩

/-! ## The certificate bootstrap pipeline (C2, C3) -/

theorem caStep_leaf_fields (fs : CertFS) (m : FreshMaterial) :
    (caStep fs m).key = fs.key ∧ (caStep fs m).csr = fs.csr
    ∧ (caStep fs m).cert = fs.cert ∧ (caStep fs m).ext = fs.ext := by
  unfold caStep
  split <;> simp

theorem leafStep_ca_fields (fs : CertFS) (e : String) (m : FreshMaterial) :
    (leafStep fs e m).1.caKey = fs.caKey
    ∧ (leafStep fs e m).1.caCert = fs.caCert
    ∧ (leafStep fs e m).1.caExt = fs.caExt := by
  unfold leafStep
  split <;> simp

theorem leafReuse_iff (fs : CertFS) (e : String) :
    leafReuse fs e = true
      ↔ fs.ext = some e ∧ fs.key.isSome = true ∧ fs.cert.isSome = true := by
  unfold leafReuse
  cases h : fs.ext with
  | none => simp
  | some stored => simp [Bool.and_eq_true, beq_iff_eq, and_assoc]

/-- C2 — `createSelfSignedCert` reuses the stored leaf key/cert exactly
when the leaf key, leaf cert and SAN-extension files all exist and the
stored extension document is byte-identical to the freshly computed one;
on reuse no leaf file changes, and otherwise the new document is written
and a fresh key, CSR and signed certificate replace the old ones. -/
theorem C2_leaf_reuse (fs : CertFS) (o : SSLOptions) (d : DiscoveryEnv)
    (m : FreshMaterial) :
    ((createSelfSignedCert fs o d m).2 = true
      ↔ (fs.ext = some (computedExt o d) ∧ fs.key.isSome = true
          ∧ fs.cert.isSome = true))
    ∧ ((createSelfSignedCert fs o d m).2 = true →
        (createSelfSignedCert fs o d m).1.key = fs.key
        ∧ (createSelfSignedCert fs o d m).1.csr = fs.csr
        ∧ (createSelfSignedCert fs o d m).1.cert = fs.cert
        ∧ (createSelfSignedCert fs o d m).1.ext = fs.ext)
    ∧ ((createSelfSignedCert fs o d m).2 = false →
        (createSelfSignedCert fs o d m).1.ext = some (computedExt o d)
        ∧ (createSelfSignedCert fs o d m).1.key = some m.key
        ∧ (createSelfSignedCert fs o d m).1.csr = some m.csr
        ∧ (createSelfSignedCert fs o d m).1.cert = some m.cert) := by
  obtain ⟨hk, hcsr, hcert, hext⟩ := caStep_leaf_fields fs m
  have hiff : leafReuse (caStep fs m) (computedExt o d) = true
      ↔ (fs.ext = some (computedExt o d) ∧ fs.key.isSome = true
          ∧ fs.cert.isSome = true) := by
    rw [leafReuse_iff, hk, hcert, hext]
  unfold createSelfSignedCert leafStep
  split
  case isTrue h =>
    refine ⟨?_, fun _ => ⟨hk, hcsr, hcert, hext⟩, fun hf => by simp at hf⟩
    simpa using hiff.mp h
  case isFalse h =>
    refine ⟨?_, fun ht => by simp at ht, fun _ => ⟨rfl, rfl, rfl, rfl⟩⟩
    simpa using fun hrhs => h (hiff.mpr hrhs)

/-- C3 — a new CA root key and certificate are generated (and the CA
extension config rewritten) exactly when at least one of the CA key file
or CA certificate file is missing; when both exist none of the CA files
is touched. -/
theorem C3_ca_generation (fs : CertFS) (o : SSLOptions) (d : DiscoveryEnv)
    (m : FreshMaterial) :
    ((fs.caKey.isNone || fs.caCert.isNone) = true →
        (createSelfSignedCert fs o d m).1.caKey = some m.caKey
        ∧ (createSelfSignedCert fs o d m).1.caCert = some m.caCert
        ∧ (createSelfSignedCert fs o d m).1.caExt = some caExtDocument)
    ∧ ((fs.caKey.isNone || fs.caCert.isNone) = false →
        (createSelfSignedCert fs o d m).1.caKey = fs.caKey
        ∧ (createSelfSignedCert fs o d m).1.caCert = fs.caCert
        ∧ (createSelfSignedCert fs o d m).1.caExt = fs.caExt) := by
  obtain ⟨h1, h2, h3⟩ := leafStep_ca_fields (caStep fs m) (computedExt o d) m
  constructor
  · intro hc
    unfold createSelfSignedCert
    rw [h1, h2, h3]
    unfold caStep
    rw [hc]
    simp
  · intro hc
    unfold createSelfSignedCert
    rw [h1, h2, h3]
    unfold caStep
    rw [hc]
    simp

/-! ## Session-cookie scanning (C4, C5) -/

theorem stripFront_self (p l : List Char) : stripFront p (p ++ l) = some l := by
  induction p with
  | nil => rfl
  | cons c cs ih => simp [stripFront, ih]

theorem dropWordRun_append_word (v l : List Char)
    (hv : v.all isWordChar = true) : dropWordRun (v ++ l) = dropWordRun l := by
  induction v with
  | nil => rfl
  | cons c cs ih =>
    simp only [List.all_cons, Bool.and_eq_true] at hv
    simp [dropWordRun, hv.1, ih hv.2]

theorem matchSessAt_canonical (v post : List Char) (hne : v ≠ [])
    (hv : v.all isWordChar = true) :
    matchSessAt (sessKey ++ (v ++ (';' :: post))) = some post := by
  unfold matchSessAt
  rw [stripFront_self]
  cases v with
  | nil => exact absurd rfl hne
  | cons c cs =>
    simp only [List.all_cons, Bool.and_eq_true] at hv
    simp only [List.cons_append, hv.1, if_pos]
    rw [dropWordRun_append_word cs (';' :: post) hv.2]
    have h1 : dropWordRun (';' :: post) = ';' :: post := by
      simp [dropWordRun, isWordChar]
    rw [h1]
    rfl

theorem stripSessL_of_match {l r : List Char} (h : matchSessAt l = some r) :
    stripSessL l = r := by
  cases l with
  | nil => simp [matchSessAt, sessKey, stripFront] at h
  | cons c cs => simp [stripSessL, h]

theorem hasSessL_of_match {l r : List Char} (h : matchSessAt l = some r) :
    hasSessL l = true := by
  cases l with
  | nil => simp [matchSessAt, sessKey, stripFront] at h
  | cons c cs => simp [hasSessL, h]

theorem stripSessL_append_across (p r : List Char)
    (h : noSessAcross p r = true) :
    stripSessL (p ++ r) = p ++ stripSessL r := by
  induction p with
  | nil => rfl
  | cons c ps ih =>
    simp only [noSessAcross, Bool.and_eq_true, Option.isNone_iff_eq_none] at h
    have e1 : stripSessL (c :: (ps ++ r)) = c :: stripSessL (ps ++ r) := by
      rw [stripSessL, h.1]
    rw [show (c :: ps) ++ r = c :: (ps ++ r) from rfl, e1, ih h.2]
    rfl

theorem hasSessL_append_across (p r : List Char)
    (h : noSessAcross p r = true) (hr : hasSessL r = false) :
    hasSessL (p ++ r) = false := by
  induction p with
  | nil => simpa using hr
  | cons c ps ih =>
    simp only [noSessAcross, Bool.and_eq_true, Option.isNone_iff_eq_none] at h
    have e1 : hasSessL (c :: (ps ++ r))
        = ((matchSessAt (c :: (ps ++ r))).isSome || hasSessL (ps ++ r)) := by
      rw [hasSessL]
    rw [show (c :: ps) ++ r = c :: (ps ++ r) from rfl, e1, h.1, ih h.2]
    rfl

theorem hasSessL_append_right (p r : List Char) (hr : hasSessL r = true) :
    hasSessL (p ++ r) = true := by
  induction p with
  | nil => simpa using hr
  | cons c ps ih => simp [hasSessL, ih]

/-- C4 — when the forwarded cookie header carries a single well-formed
`sessionid=<value>;` cookie (no other `sessionid` match starts inside the
surrounding text) and the `proxybackend` marker does not match the
configured backend, `onProxyReq` deletes exactly that cookie and the
forwarded header no longer matches `/sessionid=\w+;?/`; when the marker
matches, the header is left unchanged; an absent cookie header stays
absent (there is nothing to strip). -/
theorem C4_session_strip (backend pre v post : String)
    (hv1 : v ≠ "") (hv2 : v.data.all isWordChar = true)
    (hpre : noSessAcross pre.data ("sessionid=" ++ v ++ ";" ++ post).data = true)
    (hseam : noSessAcross pre.data post.data = true)
    (hpost : hasSessStr post = false) :
    (markerTest backend (pre ++ "sessionid=" ++ v ++ ";" ++ post) = false →
        onProxyReq backend (some (pre ++ "sessionid=" ++ v ++ ";" ++ post))
          = some (pre ++ post)
        ∧ hasSessStr (pre ++ post) = false)
    ∧ (markerTest backend (pre ++ "sessionid=" ++ v ++ ";" ++ post) = true →
        onProxyReq backend (some (pre ++ "sessionid=" ++ v ++ ";" ++ post))
          = some (pre ++ "sessionid=" ++ v ++ ";" ++ post))
    ∧ onProxyReq backend none = none
    ∧ hasSessStr (pre ++ "sessionid=" ++ v ++ ";" ++ post) = true := by
  have hsemi : (";" : String).data = [';'] := rfl
  have hL : (pre ++ "sessionid=" ++ v ++ ";" ++ post).data
      = pre.data ++ (sessKey ++ (v.data ++ (';' :: post.data))) := by
    simp [String.data_append, List.append_assoc, sessKey, hsemi]
  have hR : ("sessionid=" ++ v ++ ";" ++ post).data
      = sessKey ++ (v.data ++ (';' :: post.data)) := by
    simp [String.data_append, List.append_assoc, sessKey, hsemi]
  rw [hR] at hpre
  have hvne : v.data ≠ [] := by
    intro h
    apply hv1
    have h2 := congrArg String.mk h
    exact h2
  have hmatch := matchSessAt_canonical v.data post.data hvne hv2
  have hc0 : ((pre ++ "sessionid=" ++ v ++ ";" ++ post) == "") = false := by
    rw [beq_eq_false_iff_ne]
    intro h
    have h2 := congrArg String.data h
    rw [hL] at h2
    simp [sessKey] at h2
  have hstrip : stripSess (pre ++ "sessionid=" ++ v ++ ";" ++ post)
      = pre ++ post := by
    unfold stripSess
    rw [hL, stripSessL_append_across _ _ hpre, stripSessL_of_match hmatch]
    rfl
  refine ⟨?_, ?_, rfl, ?_⟩
  · intro hmark
    constructor
    · simp only [onProxyReq]
      rw [hc0, hmark]
      simp [hstrip]
    · unfold hasSessStr
      have h2 : (pre ++ post).data = pre.data ++ post.data :=
        String.data_append _ _
      rw [h2]
      exact hasSessL_append_across _ _ hseam hpost
  · intro hmark
    simp only [onProxyReq]
    rw [hc0, hmark]
    simp
  · unfold hasSessStr
    rw [hL]
    exact hasSessL_append_right _ _ (hasSessL_of_match hmatch)

theorem C4_session_strip_witness :
    onProxyReq "http://b1" (some "a=1; sessionid=abc; b=2") = some "a=1;  b=2"
    ∧ hasSessStr "a=1;  b=2" = false :=
  (C4_session_strip "http://b1" "a=1; " "abc" " b=2" (by decide) (by decide)
    (by decide) (by decide) (by decide)).1 (by decide)

/-- C5 — when the request's cookie header (treated as `""` when absent)
lacks the `proxybackend` marker, `onProxyRes` normalizes `set-cookie` to
an array and appends the marker cookie carrying an expiry 365 days ahead
and `path=/`; when additionally no response `Set-Cookie` value sets a new
`sessionid`, it appends an immediately-expired `sessionid` cookie.  When
the marker matches, the response's `set-cookie` values are untouched.
(The hypothesis records that the marker cookie itself does not match the
session-cookie regex, true for any real backend origin.) -/
theorem C5_marker_cookie (backend : String) (reqCookie : Option String)
    (sc : HVal) (toUTC : Nat → String) (now : Nat)
    (hm : hasSessStr (backendCookieValue backend (toUTC (now + 365))) = false) :
    (markerTest backend (reqCookie.getD "") = false →
        onProxyRes backend reqCookie sc toUTC now
          = HVal.arr (normalizeSC sc
              ++ [backendCookieValue backend (toUTC (now + 365))]
              ++ (if (normalizeSC sc).filter (fun c => hasSessStr c) = []
                  then [expiredSessionCookie] else [])))
    ∧ (markerTest backend (reqCookie.getD "") = true →
        onProxyRes backend reqCookie sc toUTC now = sc)
    ∧ ((normalizeSC sc).filter (fun c => hasSessStr c) = []
        ↔ ∀ c ∈ normalizeSC sc, hasSessStr c = false) := by
  refine ⟨?_, ?_, by simp [List.filter_eq_nil_iff]⟩
  · intro hmark
    unfold onProxyRes
    rw [hmark]
    have hfl : (normalizeSC sc
          ++ [backendCookieValue backend (toUTC (now + 365))]).filter
            (fun c => hasSessStr c)
        = (normalizeSC sc).filter (fun c => hasSessStr c) := by
      rw [List.filter_append]
      simp [hm]
    by_cases hz : (normalizeSC sc).filter (fun c => hasSessStr c) = []
    · simp [hfl, hz]
    · simp [hfl, hz, List.length_eq_zero]
  · intro hmark
    unfold onProxyRes
    rw [hmark]
    simp

theorem C5_marker_cookie_witness :
    onProxyRes "b1" none (HVal.one "tok=1") (fun _ => "E") 0
      = HVal.arr ["tok=1", "proxybackend=b1; expires=E; path=/",
          "sessionid=; expires=Thu, 01 Jan 1970 00:00:01 GMT; path=/"] := by
  have h := (C5_marker_cookie "b1" none (HVal.one "tok=1") (fun _ => "E") 0
    (by decide)).1 (by decide)
  simpa [backendCookieValue, expiredSessionCookie, BACKEND_COOKIE] using h

/-! ## Origin rewriting (C7) -/

theorem tryOrigins_nil_input (os : List (List Char)) :
    tryOrigins os [] = none := by
  induction os with
  | nil => rfl
  | cons o os ih =>
    cases o with
    | nil => simpa [tryOrigins] using ih
    | cons p ps => simpa [tryOrigins, ciStrip] using ih

theorem ciStrip_some_length {pat l r : List Char}
    (h : ciStrip pat l = some r) : r.length + pat.length = l.length := by
  induction pat generalizing l with
  | nil =>
    simp only [ciStrip, Option.some.injEq] at h
    simp [← h]
  | cons p ps ih =>
    cases l with
    | nil => simp [ciStrip] at h
    | cons c cs =>
      simp only [ciStrip] at h
      split at h
      · have := ih h
        simp only [List.length_cons]
        omega
      · exact absurd h (by simp)

theorem tryOrigins_some_length {os : List (List Char)} {l r : List Char}
    (h : tryOrigins os l = some r) : r.length < l.length := by
  induction os with
  | nil => simp [tryOrigins] at h
  | cons o os ih =>
    cases o with
    | nil =>
      simp only [tryOrigins] at h
      exact ih h
    | cons p ps =>
      simp only [tryOrigins] at h
      cases hc : ciStrip (p :: ps) l with
      | none =>
        rw [hc] at h
        exact ih h
      | some r' =>
        rw [hc] at h
        cases h
        have := ciStrip_some_length hc
        simp only [List.length_cons] at this
        omega

theorem removeAllFuel_extra (os : List (List Char)) :
    ∀ n l, l.length ≤ n → removeAllFuel os n l = removeAllL os l := by
  intro n
  induction n using Nat.strong_induction_on with
  | _ n ih =>
    intro l hl
    cases l with
    | nil => cases n <;> rfl
    | cons c cs =>
      cases n with
      | zero => simp at hl
      | succ m =>
        have hm : cs.length ≤ m := by simp at hl; omega
        unfold removeAllL
        simp only [List.length_cons]
        cases htry : tryOrigins os (c :: cs) with
        | none =>
          simp only [removeAllFuel, htry]
          rw [ih m (by omega) cs hm,
            ih cs.length (by omega) cs (le_refl _)]
        | some r =>
          have hr := tryOrigins_some_length htry
          simp only [List.length_cons] at hr
          simp only [removeAllFuel, htry]
          rw [ih m (by omega) r (by omega),
            ih cs.length (by omega) r (by omega)]

theorem removeAllL_cons_none {os : List (List Char)} {c : Char}
    {cs : List Char} (h : tryOrigins os (c :: cs) = none) :
    removeAllL os (c :: cs) = c :: removeAllL os cs := by
  unfold removeAllL
  simp only [List.length_cons, removeAllFuel, h]

theorem removeAllL_cons_some {os : List (List Char)} {c : Char}
    {cs r : List Char} (h : tryOrigins os (c :: cs) = some r) :
    removeAllL os (c :: cs) = removeAllL os r := by
  have hr := tryOrigins_some_length h
  simp only [List.length_cons] at hr
  unfold removeAllL
  simp only [List.length_cons, removeAllFuel, h]
  exact removeAllFuel_extra os cs.length r (by omega)

theorem removeAllL_append_across (os : List (List Char)) (a r : List Char)
    (h : noOriginAcross os a r = true) :
    removeAllL os (a ++ r) = a ++ removeAllL os r := by
  induction a with
  | nil => rfl
  | cons c ps ih =>
    simp only [noOriginAcross, Bool.and_eq_true,
      Option.isNone_iff_eq_none] at h
    rw [show (c :: ps) ++ r = c :: (ps ++ r) from rfl,
      removeAllL_cons_none h.1, ih h.2]
    rfl

theorem ciStrip_self (p l : List Char) : ciStrip p (p ++ l) = some l := by
  induction p with
  | nil => rfl
  | cons c cs ih => simp [ciStrip, ih]

theorem removeAllL_head_match (o b : List Char) (ho : o ≠ []) :
    removeAllL [o] (o ++ b) = removeAllL [o] b := by
  cases o with
  | nil => exact absurd rfl ho
  | cons p ps =>
    have hcs : ciStrip (p :: ps) (p :: (ps ++ b)) = some b := by
      have h := ciStrip_self (p :: ps) b
      rwa [show (p :: ps) ++ b = p :: (ps ++ b) from rfl] at h
    have htry : tryOrigins [p :: ps] (p :: (ps ++ b)) = some b := by
      simp [tryOrigins, hcs]
    rw [show (p :: ps) ++ b = p :: (ps ++ b) from rfl]
    exact removeAllL_cons_some htry

/-- C7 — when `originRewrites` is active: an HTML response (content-type
contains `text/html`) has its buffered body emitted with the gzip layer
removed (when declared), every configured origin deleted by the global
case-insensitive scan, and the `content-encoding` header dropped; any
response with a missing or non-HTML content-type streams through
byte-for-byte with its headers intact.  The last two conjuncts pin down
the deletion itself: a case-insensitive occurrence of the origin is
removed wherever the scan meets one (leftmost first), and a body with no
occurrence at any position is returned verbatim. -/
theorem C7_origin_rewrite (origins : List String) (ct enc : Option String)
    (gz : String → String) (body : String) (o a b s : String)
    (ho : o.data ≠ [])
    (hacross : noOriginAcross [o.data] a.data (o.data ++ b.data) = true)
    (hnone : noOriginAcross (origins.map String.data) s.data [] = true) :
    (isHtmlContentType ct = true →
        htmlRewriteHook origins ct enc gz body
          = (none, removeAll origins
              (if enc == some "gzip" then gz body else body)))
    ∧ (isHtmlContentType ct = false →
        htmlRewriteHook origins ct enc gz body = (enc, body))
    ∧ removeAll [o] (a ++ o ++ b) = a ++ removeAll [o] b
    ∧ removeAll origins s = s := by
  refine ⟨?_, ?_, ?_, ?_⟩
  · intro h
    unfold htmlRewriteHook
    rw [h]
    simp
  · intro h
    unfold htmlRewriteHook
    rw [h]
    simp
  · have hdata : (a ++ o ++ b).data = a.data ++ (o.data ++ b.data) := by
      simp [String.data_append, List.append_assoc]
    calc removeAll [o] (a ++ o ++ b)
        = ⟨removeAllL [o.data] (a.data ++ (o.data ++ b.data))⟩ := by
          unfold removeAll
          rw [hdata]
          rfl
      _ = ⟨a.data ++ removeAllL [o.data] (o.data ++ b.data)⟩ := by
          rw [removeAllL_append_across _ _ _ hacross]
      _ = ⟨a.data ++ removeAllL [o.data] b.data⟩ := by
          rw [removeAllL_head_match _ _ ho]
      _ = a ++ removeAll [o] b := rfl
  · have h2 := removeAllL_append_across (origins.map String.data)
      s.data [] hnone
    have h0 : removeAllL (origins.map String.data) [] = [] := rfl
    rw [h0, List.append_nil] at h2
    unfold removeAll
    rw [h2]

theorem C7_origin_rewrite_witness :
    htmlRewriteHook ["http://internal.example"]
        (some "text/html; charset=utf-8") none (fun x => x)
        "<a href=http://INTERNAL.example/x>"
      = (none, "<a href=/x>")
    ∧ removeAll ["ab"] ("x" ++ "ab" ++ "y") = "x" ++ removeAll ["ab"] "y" := by
  have h := C7_origin_rewrite ["http://internal.example"]
    (some "text/html; charset=utf-8") none (fun x => x)
    "<a href=http://INTERNAL.example/x>" "ab" "x" "y" "zzz"
    (by decide) (by decide) (by decide)
  refine ⟨?_, h.2.2.1⟩
  rw [h.1 (by decide)]
  decide

/-! ## SAN sets (C9) -/

theorem contains_iff_mem (l : List String) (x : String) :
    l.contains x = true ↔ x ∈ l := by
  show l.elem x = true ↔ x ∈ l
  exact List.elem_iff

theorem addUnique_ne_nil (l : List String) (x : String) (h : l ≠ []) :
    addUnique l x ≠ [] := by
  unfold addUnique
  split
  · exact h
  · simp

theorem addUnique_head (l : List String) (x : String) (h : l ≠ []) :
    (addUnique l x).head? = l.head? := by
  unfold addUnique
  split
  · rfl
  · cases l with
    | nil => exact absurd rfl h
    | cons c cs => rfl

theorem addUnique_nodup (l : List String) (x : String) (h : l.Nodup) :
    (addUnique l x).Nodup := by
  unfold addUnique
  split
  case isTrue => exact h
  case isFalse hc =>
    have hx : ¬ x ∈ l := fun hm => hc ((contains_iff_mem l x).mpr hm)
    simp [List.nodup_append, h, hx]

theorem addAllUnique_ne_nil (l xs : List String) (h : l ≠ []) :
    addAllUnique l xs ≠ [] := by
  induction xs generalizing l with
  | nil => exact h
  | cons y ys ih => exact ih _ (addUnique_ne_nil l y h)

theorem addAllUnique_head (l xs : List String) (h : l ≠ []) :
    (addAllUnique l xs).head? = l.head? := by
  induction xs generalizing l with
  | nil => rfl
  | cons y ys ih =>
    rw [show addAllUnique l (y :: ys) = addAllUnique (addUnique l y) ys from rfl,
      ih _ (addUnique_ne_nil l y h), addUnique_head l y h]

theorem addAllUnique_nodup (l xs : List String) (h : l.Nodup) :
    (addAllUnique l xs).Nodup := by
  induction xs generalizing l with
  | nil => exact h
  | cons y ys ih => exact ih _ (addUnique_nodup l y h)

theorem sanIPs_head (a lan : List String) (pub : Option String) :
    (sanIPs a lan pub).head? = some "127.0.0.1" := by
  have hne : addAllUnique (addAllUnique ["127.0.0.1"] a) lan ≠ [] :=
    addAllUnique_ne_nil _ _ (addAllUnique_ne_nil _ _ (by simp))
  have hh : (addAllUnique (addAllUnique ["127.0.0.1"] a) lan).head?
      = some "127.0.0.1" := by
    rw [addAllUnique_head _ _ (addAllUnique_ne_nil _ _ (by simp)),
      addAllUnique_head _ _ (by simp)]
    rfl
  cases pub with
  | none => exact hh
  | some ip =>
    show (addUnique (addAllUnique (addAllUnique ["127.0.0.1"] a) lan) ip).head?
      = some "127.0.0.1"
    rw [addUnique_head _ _ hne]
    exact hh

theorem sanIPs_nodup (a lan : List String) (pub : Option String) :
    (sanIPs a lan pub).Nodup := by
  have hn : (addAllUnique (addAllUnique ["127.0.0.1"] a) lan).Nodup :=
    addAllUnique_nodup _ _ (addAllUnique_nodup _ _ (by simp))
  cases pub with
  | none => exact hn
  | some ip =>
    show (addUnique (addAllUnique (addAllUnique ["127.0.0.1"] a) lan) ip).Nodup
    exact addUnique_nodup _ _ hn

/-! ## The SAN extension document (C9) -/

theorem rsp_cons_ns (c : Char) (l : List Char) (h : (c == ' ') = false) :
    rsp (c :: l) = c :: rsp l := by
  cases l with
  | nil => rfl
  | cons y ys => simp [rsp, h]

theorem rsp_sp4 (l : List Char) :
    rsp (' ' :: ' ' :: ' ' :: ' ' :: l) = rsp l := by
  rw [show rsp (' ' :: ' ' :: ' ' :: ' ' :: l) = rsp (' ' :: ' ' :: l) from by
    simp [rsp]]
  simp [rsp]

theorem noPair_sfree (l : List Char) (h : sfree l = true) : noPair l = true := by
  induction l with
  | nil => rfl
  | cons c cs ih =>
    simp only [sfree, List.all_cons, Bool.and_eq_true] at h
    cases cs with
    | nil => rfl
    | cons y ys =>
      have hc : (c == ' ') = false := by simpa [nsp] using h.1
      have hrest : noPair (y :: ys) = true := ih (by simpa [sfree] using h.2)
      simp [noPair, hc, hrest]

theorem headNS_ne_nil (l : List Char) (h : headNS l = true) : l ≠ [] := by
  cases l with
  | nil => simp [headNS] at h
  | cons c cs => simp

theorem headNS_of_sfree (l : List Char) (h : sfree l = true) (hne : l ≠ []) :
    headNS l = true := by
  cases l with
  | nil => exact absurd rfl hne
  | cons c cs =>
    simp only [sfree, List.all_cons, Bool.and_eq_true] at h
    exact h.1

theorem lastNS_of_sfree (l : List Char) (h : sfree l = true) (hne : l ≠ []) :
    lastNS l = true := by
  induction l with
  | nil => exact absurd rfl hne
  | cons c cs ih =>
    simp only [sfree, List.all_cons, Bool.and_eq_true] at h
    cases cs with
    | nil => exact h.1
    | cons y ys => exact ih (by simpa [sfree] using h.2) (by simp)

theorem headNS_append (a b : List Char) (h : headNS a = true) :
    headNS (a ++ b) = true := by
  cases a with
  | nil => simp [headNS] at h
  | cons c cs => exact h

theorem lastNS_append (a b : List Char) (hb : lastNS b = true) :
    lastNS (a ++ b) = true := by
  induction a with
  | nil => simpa using hb
  | cons c cs ih =>
    cases cs with
    | nil =>
      cases b with
      | nil => simp [lastNS] at hb
      | cons y ys => exact hb
    | cons y ys => exact ih

theorem noPair_append (a b : List Char) (ha : noPair a = true)
    (hb : noPair b = true) (hcond : (lastNS a || headNS b) = true) :
    noPair (a ++ b) = true := by
  induction a with
  | nil => simpa using hb
  | cons c cs ih =>
    cases cs with
    | nil =>
      cases b with
      | nil => rfl
      | cons y ys =>
        simp only [lastNS, headNS, Bool.or_eq_true] at hcond
        have hp : (c == ' ' && y == ' ') = false := by
          rcases hcond with h | h
          · have : (c == ' ') = false := by simpa [nsp] using h
            simp [this]
          · have : (y == ' ') = false := by simpa [nsp] using h
            simp [this]
        simp [noPair, hp, hb]
    | cons y ys =>
      simp only [noPair, Bool.and_eq_true] at ha
      have ih2 := ih ha.2 hcond
      rw [show (c :: y :: ys) ++ b = c :: ((y :: ys) ++ b) from rfl]
      rw [show (y :: ys) ++ b = y :: (ys ++ b) from rfl] at ih2 ⊢
      simp only [noPair, Bool.and_eq_true]
      exact ⟨ha.1, ih2⟩

theorem rsp_clean_append (xs ys : List Char) (h1 : noPair xs = true)
    (h2 : lastNS xs = true) : rsp (xs ++ ys) = xs ++ rsp ys := by
  induction xs with
  | nil => simp [lastNS] at h2
  | cons c cs ih =>
    cases cs with
    | nil =>
      have hc : (c == ' ') = false := by simpa [lastNS, nsp] using h2
      exact rsp_cons_ns c ys hc
    | cons y ys' =>
      simp only [noPair, Bool.and_eq_true] at h1
      have hcy : (c == ' ' && y == ' ') = false := by
        have h3 := h1.1
        rwa [Bool.not_eq_true'] at h3
      have e1 : rsp (c :: ((y :: ys') ++ ys)) = c :: rsp ((y :: ys') ++ ys) := by
        rw [show (y :: ys') ++ ys = y :: (ys' ++ ys) from rfl]
        rw [rsp]
        simp [hcy]
      rw [show (c :: y :: ys') ++ ys = c :: ((y :: ys') ++ ys) from rfl, e1,
        ih h1.2 h2]
      rfl

/-! Decimal rendering facts -/

theorem digitChar_nsp (m : Nat) : nsp (digitChar m) = true := by
  unfold digitChar
  split <;> decide

theorem natDecAux_sfree : ∀ fuel n acc, sfree acc = true →
    sfree (natDecAux fuel n acc) = true := by
  intro fuel
  induction fuel with
  | zero => intro n acc hacc; simpa [natDecAux] using hacc
  | succ f ih =>
    intro n acc hacc
    cases n with
    | zero => simpa [natDecAux] using hacc
    | succ k =>
      simp only [natDecAux]
      refine ih _ _ ?_
      simp only [sfree, List.all_cons, Bool.and_eq_true]
      exact ⟨digitChar_nsp _, by simpa [sfree] using hacc⟩

theorem natDecAux_length : ∀ fuel n acc,
    acc.length ≤ (natDecAux fuel n acc).length := by
  intro fuel
  induction fuel with
  | zero => intro n acc; simp [natDecAux]
  | succ f ih =>
    intro n acc
    cases n with
    | zero => simp [natDecAux]
    | succ k =>
      simp only [natDecAux]
      have h := ih ((k + 1) / 10) (digitChar ((k + 1) % 10) :: acc)
      simp only [List.length_cons] at h
      omega

theorem natDec_sfree (n : Nat) : sfree (natDec n).data = true := by
  cases n with
  | zero => decide
  | succ k =>
    show sfree (natDecAux (k + 1) (k + 1) []) = true
    exact natDecAux_sfree (k + 1) (k + 1) [] (by decide)

theorem natDec_succ_ne_nil (k : Nat) : (natDec (k + 1)).data ≠ [] := by
  show natDecAux (k + 1) (k + 1) [] ≠ []
  simp only [natDecAux]
  intro h
  have h2 := natDecAux_length k ((k + 1) / 10) [digitChar ((k + 1) % 10)]
  rw [h] at h2
  simp at h2

/-! Clean lines and joining -/

theorem sanLine_clean (tag : String) (n : Nat) (d : String)
    (ht1 : noPair tag.data = true) (ht2 : headNS tag.data = true)
    (ht3 : lastNS tag.data = true)
    (hd1 : d.data ≠ []) (hd2 : sfree d.data = true) :
    cleanLine (tag ++ natDec (n + 1) ++ " = " ++ d) = true := by
  have hNs : sfree (natDec (n + 1)).data = true := natDec_sfree (n + 1)
  have hNne : (natDec (n + 1)).data ≠ [] := natDec_succ_ne_nil n
  have hdata : (tag ++ natDec (n + 1) ++ " = " ++ d).data
      = ((tag.data ++ (natDec (n + 1)).data) ++ " = ".data) ++ d.data := by
    simp [String.data_append]
  have hTN_np : noPair (tag.data ++ (natDec (n + 1)).data) = true :=
    noPair_append _ _ ht1 (noPair_sfree _ hNs) (by simp [ht3])
  have hTN_last : lastNS (tag.data ++ (natDec (n + 1)).data) = true :=
    lastNS_append _ _ (lastNS_of_sfree _ hNs hNne)
  have hTNM_np : noPair ((tag.data ++ (natDec (n + 1)).data) ++ " = ".data)
      = true :=
    noPair_append _ _ hTN_np (by decide) (by simp [hTN_last])
  have hd_head : headNS d.data = true := headNS_of_sfree _ hd2 hd1
  have h_np : noPair ((((tag.data ++ (natDec (n + 1)).data) ++ " = ".data))
      ++ d.data) = true :=
    noPair_append _ _ hTNM_np (noPair_sfree _ hd2) (by simp [hd_head])
  have h_head : headNS ((((tag.data ++ (natDec (n + 1)).data) ++ " = ".data))
      ++ d.data) = true :=
    headNS_append _ _ (headNS_append _ _ (headNS_append _ _ ht2))
  have h_last : lastNS ((((tag.data ++ (natDec (n + 1)).data) ++ " = ".data))
      ++ d.data) = true :=
    lastNS_append _ _ (lastNS_of_sfree _ hd2 hd1)
  unfold cleanLine
  rw [hdata]
  simp only [Bool.and_eq_true]
  exact ⟨⟨h_np, h_head⟩, h_last⟩

theorem sanLines_ne_nil (tag : String) (n : Nat) (ds : List String)
    (h : ds ≠ []) : sanLines tag n ds ≠ [] := by
  cases ds with
  | nil => exact absurd rfl h
  | cons d rest => simp [sanLines]

theorem sanLines_all_clean (tag : String)
    (ht1 : noPair tag.data = true) (ht2 : headNS tag.data = true)
    (ht3 : lastNS tag.data = true) :
    ∀ (ds : List String) (n : Nat),
      (∀ d ∈ ds, d.data ≠ [] ∧ sfree d.data = true) →
      (sanLines tag n ds).all cleanLine = true := by
  intro ds
  induction ds with
  | nil => intro n _; rfl
  | cons d rest ih =>
    intro n hall
    have hd := hall d (by simp)
    simp only [sanLines, List.all_cons, Bool.and_eq_true]
    exact ⟨sanLine_clean tag n d ht1 ht2 ht3 hd.1 hd.2,
      ih (n + 1) (fun x hx => hall x (by simp [hx]))⟩

theorem joinNL_clean : ∀ ls : List String, ls ≠ [] →
    ls.all cleanLine = true →
    noPair (joinNL ls).data = true ∧ headNS (joinNL ls).data = true
      ∧ lastNS (joinNL ls).data = true := by
  intro ls
  induction ls with
  | nil => intro h; exact absurd rfl h
  | cons s rest ih =>
    intro _ hall
    simp only [List.all_cons, Bool.and_eq_true] at hall
    obtain ⟨hs, hrest⟩ := hall
    unfold cleanLine at hs
    simp only [Bool.and_eq_true] at hs
    obtain ⟨⟨hs1, hs2⟩, hs3⟩ := hs
    cases rest with
    | nil => exact ⟨hs1, hs2, hs3⟩
    | cons t ts =>
      obtain ⟨hJnp, hJh, hJl⟩ := ih (by simp) hrest
      have hJoin : joinNL (s :: t :: ts) = s ++ "\n" ++ joinNL (t :: ts) := rfl
      have hdata : (s ++ "\n" ++ joinNL (t :: ts)).data
          = (s.data ++ "\n".data) ++ (joinNL (t :: ts)).data := by
        simp [String.data_append]
      have hnl_np : noPair (s.data ++ "\n".data) = true :=
        noPair_append _ _ hs1 (by decide) (by simp [hs3])
      have hnl_last : lastNS (s.data ++ "\n".data) = true :=
        lastNS_append _ _ (by decide)
      refine ⟨?_, ?_, ?_⟩
      · rw [hJoin, hdata]
        exact noPair_append _ _ hnl_np hJnp (by simp [hnl_last])
      · rw [hJoin, hdata]
        exact headNS_append _ _ (headNS_append _ _ hs2)
      · rw [hJoin, hdata]
        exact lastNS_append _ _ hJl

/-! The double-space removal over the assembled template -/

theorem rsp_nl4 (chunk rest : List Char) (h1 : noPair chunk = true)
    (h2 : lastNS chunk = true) :
    rsp ('\n' :: ' ' :: ' ' :: ' ' :: ' ' :: (chunk ++ rest))
      = '\n' :: (chunk ++ rsp rest) := by
  rw [rsp_cons_ns '\n' _ (by decide), rsp_sp4, rsp_clean_append chunk rest h1 h2]

theorem rsp_template (D I : List Char)
    (hDnp : noPair D = true) (hDl : lastNS D = true)
    (hInp : noPair I = true) (hIl : lastNS I = true) :
    rsp ("\n    subjectAltName = @alt_names\n\n    [ alt_names ]\n    ".data
        ++ (D ++ ("\n    ".data ++ (I ++ "\n  ".data))))
      = "\nsubjectAltName = @alt_names\n\n[ alt_names ]\n".data
        ++ (D ++ ('\n' :: (I ++ ['\n']))) := by
  have e1 : ∀ Z : List Char,
      "\n    subjectAltName = @alt_names\n\n    [ alt_names ]\n    ".data ++ Z
        = '\n' :: ' ' :: ' ' :: ' ' :: ' '
          :: ("subjectAltName = @alt_names".data
            ++ ('\n' :: ('\n' :: ' ' :: ' ' :: ' ' :: ' '
              :: ("[ alt_names ]".data
                ++ ('\n' :: ' ' :: ' ' :: ' ' :: ' ' :: Z))))) := fun Z => rfl
  have e2 : ∀ Z : List Char, "\n    ".data ++ Z
      = '\n' :: ' ' :: ' ' :: ' ' :: ' ' :: Z := fun Z => rfl
  have e3 : ("\n  " : String).data = '\n' :: ' ' :: ' ' :: [] := rfl
  have e5 : ∀ Z : List Char,
      "\nsubjectAltName = @alt_names\n\n[ alt_names ]\n".data ++ Z
        = '\n' :: ("subjectAltName = @alt_names".data
          ++ ('\n' :: ('\n' :: ("[ alt_names ]".data ++ ('\n' :: Z))))) :=
    fun Z => rfl
  rw [e1, rsp_nl4 _ _ (by decide) (by decide),
    rsp_cons_ns '\n' _ (by decide),
    rsp_nl4 _ _ (by decide) (by decide),
    rsp_nl4 _ _ hDnp hDl, e2,
    rsp_nl4 _ _ hInp hIl, e3,
    show rsp ('\n' :: ' ' :: ' ' :: []) = ['\n'] from by decide,
    e5]

theorem extDocument_shape (domains ips : List String)
    (hdom : domains ≠ []) (hips : ips ≠ [])
    (hd : ∀ d ∈ domains, d.data ≠ [] ∧ sfree d.data = true)
    (hi : ∀ d ∈ ips, d.data ≠ [] ∧ sfree d.data = true) :
    extDocument domains ips
      = "\nsubjectAltName = @alt_names\n\n[ alt_names ]\n"
        ++ joinNL (sanLines "DNS." 0 domains) ++ "\n"
        ++ joinNL (sanLines "IP." 0 ips) ++ "\n" := by
  obtain ⟨hDnp, hDh, hDl⟩ := joinNL_clean _ (sanLines_ne_nil _ _ _ hdom)
    (sanLines_all_clean "DNS." (by decide) (by decide) (by decide) domains 0 hd)
  obtain ⟨hInp, hIh, hIl⟩ := joinNL_clean _ (sanLines_ne_nil _ _ _ hips)
    (sanLines_all_clean "IP." (by decide) (by decide) (by decide) ips 0 hi)
  apply String.ext
  have hT : ("\n    subjectAltName = @alt_names\n\n    [ alt_names ]\n    "
        ++ joinNL (sanLines "DNS." 0 domains) ++ "\n    "
        ++ joinNL (sanLines "IP." 0 ips) ++ "\n  ").data
      = "\n    subjectAltName = @alt_names\n\n    [ alt_names ]\n    ".data
        ++ ((joinNL (sanLines "DNS." 0 domains)).data
          ++ ("\n    ".data ++ ((joinNL (sanLines "IP." 0 ips)).data
            ++ "\n  ".data))) := by
    simp [String.data_append, List.append_assoc]
  show rsp ("\n    subjectAltName = @alt_names\n\n    [ alt_names ]\n    "
        ++ joinNL (sanLines "DNS." 0 domains) ++ "\n    "
        ++ joinNL (sanLines "IP." 0 ips) ++ "\n  ").data
      = _
  rw [hT, rsp_template _ _ hDnp hDl hInp hIl]
  simp [String.data_append, List.append_assoc,
    show ("\n" : String).data = ['\n'] from rfl]

/-- C9 — the SAN domain list is pushed through a deduplicating `addDomain`
with the duplicate check skipped for the discovered hostname: a caller
addition equal to the hostname is listed twice. -/
theorem C9_domains_not_dedup :
    sanDomains ["myhost"] (some "myhost") = ["localhost", "myhost", "myhost"]
    ∧ (sanDomains ["myhost"] (some "myhost")).count "myhost" = 2 := by
  constructor <;> decide

/-- C9 (amended) — the SAN sets are ordered lists seeded with `localhost`
and `127.0.0.1` ahead of caller additions and discovery; the IP list is
fully deduplicated; the domain list is deduplicated except that the
discovered hostname is appended unconditionally (it may duplicate an
existing entry); and the serialized extension document is the
`subjectAltName = @alt_names` header followed by the `[ alt_names ]`
section holding the 1-indexed `DNS.n = <domain>` lines in insertion order
and then the 1-indexed `IP.n = <ip>` lines. -/
theorem C9_san_sets (addD addIPs lanIPs : List String)
    (publicIP : Option String) (host : String) (domains ips : List String)
    (hdom : domains ≠ []) (hips : ips ≠ [])
    (hd : ∀ d ∈ domains, d.data ≠ [] ∧ sfree d.data = true)
    (hi : ∀ d ∈ ips, d.data ≠ [] ∧ sfree d.data = true) :
    (sanIPs addIPs lanIPs publicIP).head? = some "127.0.0.1"
    ∧ (sanIPs addIPs lanIPs publicIP).Nodup
    ∧ (sanDomains addD none).head? = some "localhost"
    ∧ (sanDomains addD none).Nodup
    ∧ sanDomains addD (some host) = sanDomains addD none ++ [host]
    ∧ extDocument domains ips
        = "\nsubjectAltName = @alt_names\n\n[ alt_names ]\n"
          ++ joinNL (sanLines "DNS." 0 domains) ++ "\n"
          ++ joinNL (sanLines "IP." 0 ips) ++ "\n" := by
  refine ⟨sanIPs_head _ _ _, sanIPs_nodup _ _ _, ?_, ?_, rfl,
    extDocument_shape domains ips hdom hips hd hi⟩
  · show (addAllUnique ["localhost"] addD).head? = some "localhost"
    rw [addAllUnique_head _ _ (by simp)]
    rfl
  · exact addAllUnique_nodup _ _ (by simp)

theorem C9_san_sets_witness :
    extDocument ["localhost", "myhost"] ["127.0.0.1"]
      = "\nsubjectAltName = @alt_names\n\n[ alt_names ]\nDNS.1 = localhost\nDNS.2 = myhost\nIP.1 = 127.0.0.1\n" := by
  have h := (C9_san_sets [] [] [] none "h" ["localhost", "myhost"]
    ["127.0.0.1"] (by decide) (by decide) (by decide) (by decide)).2.2.2.2.2
  rw [h]
  decide

end WebpackSymmetric
